import Mathlib

set_option allowUnsafeReducibility true
attribute [local semireducible] Rat.mul Rat.add Rat.sub Rat.inv

/-!
Verification development for the loqa-voice-dsp boundary contract
(`ios/RustFFI/loqa_voice_dsp.h`). The header declares the exported surface;
the engine behind it is modelled from the specification. Samples and all
`float` fields are embedded as rationals; `uint32_t`/`size_t` as naturals;
`float*` arrays as lists.
-/

/-- Result record of pitch detection, fields in the declaration order of
`PitchResultFFI` in the header. -/
structure PitchResultFFI where
  success : Bool
  frequency : ℚ
  confidence : ℚ
  is_voiced : Bool
  voiced_probability : ℚ
deriving DecidableEq

/-- Result record of formant extraction (`FormantResultFFI`). -/
structure FormantResultFFI where
  success : Bool
  f1 : ℚ
  f2 : ℚ
  f3 : ℚ
  confidence : ℚ
deriving DecidableEq

/-- Result record of FFT computation (`FFTResultFFI`); the two `float*`
arrays are embedded as lists, the null pointer as the empty list. -/
structure FFTResultFFI where
  success : Bool
  magnitudes : List ℚ
  frequencies : List ℚ
  length : ℕ
  sample_rate : ℕ
deriving DecidableEq

/-- Result record of spectral feature analysis (`SpectralFeaturesFFI`). -/
structure SpectralFeaturesFFI where
  success : Bool
  centroid : ℚ
  tilt : ℚ
  rolloff_95 : ℚ
deriving DecidableEq

/-- Result record of HNR calculation (`HNRResultFFI`). -/
structure HNRResultFFI where
  success : Bool
  hnr : ℚ
  f0 : ℚ
  is_voiced : Bool
deriving DecidableEq

/-- Result record of H1-H2 calculation (`H1H2ResultFFI`). -/
structure H1H2ResultFFI where
  success : Bool
  h1h2 : ℚ
  h1_amplitude_db : ℚ
  h2_amplitude_db : ℚ
  f0 : ℚ
deriving DecidableEq

/-- Analyzer configuration (`AnalysisConfigFFI`), field order as declared. -/
structure AnalysisConfigFFI where
  sample_rate : ℕ
  frame_size : ℕ
  hop_size : ℕ
  min_frequency : ℚ
  max_frequency : ℚ
  algorithm : ℕ
  threshold : ℚ
  min_confidence : ℚ
  interpolate : Bool
deriving DecidableEq

/-- Result record of Viterbi pitch tracking (`PitchTrackFFI`); the three
`float*` arrays are embedded as lists. -/
structure PitchTrackFFI where
  success : Bool
  pitch_track : List ℚ
  voiced_probs : List ℚ
  timestamps : List ℚ
  length : ℕ
deriving DecidableEq

/-- Field names of `PitchResultFFI` in header declaration order. -/
def PitchResultFFI_fields : List String :=
  ["success", "frequency", "confidence", "is_voiced", "voiced_probability"]

/-- Field names of `FormantResultFFI` in header declaration order. -/
def FormantResultFFI_fields : List String :=
  ["success", "f1", "f2", "f3", "confidence"]

/-- Field names of `FFTResultFFI` in header declaration order. -/
def FFTResultFFI_fields : List String :=
  ["success", "magnitudes_ptr", "frequencies_ptr", "length", "sample_rate"]

/-- Field names of `SpectralFeaturesFFI` in header declaration order. -/
def SpectralFeaturesFFI_fields : List String :=
  ["success", "centroid", "tilt", "rolloff_95"]

/-- Field names of `HNRResultFFI` in header declaration order. -/
def HNRResultFFI_fields : List String :=
  ["success", "hnr", "f0", "is_voiced"]

/-- Field names of `H1H2ResultFFI` in header declaration order. -/
def H1H2ResultFFI_fields : List String :=
  ["success", "h1h2", "h1_amplitude_db", "h2_amplitude_db", "f0"]

/-- Field names of `PitchTrackFFI` in header declaration order. -/
def PitchTrackFFI_fields : List String :=
  ["success", "pitch_track_ptr", "voiced_probs_ptr", "timestamps_ptr", "length"]

/-- Parameter names of `loqa_detect_pitch` in header declaration order. -/
def loqa_detect_pitch_params : List String :=
  ["audio_ptr", "audio_len", "sample_rate", "min_frequency", "max_frequency"]

/-- Zeroed failure value of `PitchResultFFI`. -/
def failPitch : PitchResultFFI := ⟨false, 0, 0, false, 0⟩

/-- Successful-but-unvoiced value of `PitchResultFFI` (detection ran,
found nothing). -/
def unvoicedPitch : PitchResultFFI := ⟨true, 0, 0, false, 0⟩

/-- Zeroed failure value of `FormantResultFFI`. -/
def failFormant : FormantResultFFI := ⟨false, 0, 0, 0, 0⟩

/-- Zeroed failure value of `FFTResultFFI` (null pointers, zero length). -/
def failFFT : FFTResultFFI := ⟨false, [], [], 0, 0⟩

/-- Zeroed failure value of `SpectralFeaturesFFI`. -/
def failSpectral : SpectralFeaturesFFI := ⟨false, 0, 0, 0⟩

/-- Zeroed failure value of `HNRResultFFI`. -/
def failHNR : HNRResultFFI := ⟨false, 0, 0, false⟩

/-- Zeroed failure value of `H1H2ResultFFI`. -/
def failH1H2 : H1H2ResultFFI := ⟨false, 0, 0, 0, 0⟩

/-- Zeroed failure value of `PitchTrackFFI` (null pointers, zero length). -/
def failTrack : PitchTrackFFI := ⟨false, [], [], [], 0⟩

/-- Sum of a list of rationals. -/
def listSum (l : List ℚ) : ℚ := l.foldl (· + ·) 0

/-- Floor of a nonnegative rational as a natural number. -/
def natFloor (q : ℚ) : ℕ := q.num.toNat / q.den

/-- Ceiling of a nonnegative rational as a natural number. -/
def natCeil (q : ℚ) : ℕ := (q.num.toNat + q.den - 1) / q.den

/-- Clamp a rational into the unit interval. -/
def clamp01 (q : ℚ) : ℚ := max 0 (min 1 q)

/-- Element of the best (maximal) value under a rational score, earliest on
ties; `none` exactly on the empty list. -/
def bestBy {α : Type} (f : α → ℚ) (l : List α) : Option α :=
  l.foldl
    (fun acc a =>
      match acc with
      | none => some a
      | some b => if f b < f a then some a else some b)
    none

/-- Modelled from the spec: the autocorrelation of the sample list at a
given lag (the engine computing it is not in src/, only declared). -/
def acf (x : List ℚ) (lag : ℕ) : ℚ :=
  listSum ((List.range (x.length - lag)).map (fun i => x.getD i 0 * x.getD (i + lag) 0))

/-- Modelled from the spec: the YIN difference function at a given lag. -/
def diffFn (x : List ℚ) (lag : ℕ) : ℚ :=
  listSum ((List.range (x.length - lag)).map
    (fun i => (x.getD i 0 - x.getD (i + lag) 0) ^ 2))

/-- Modelled from the spec: the cumulative mean normalized difference
function of YIN. -/
def cmndf (x : List ℚ) (lag : ℕ) : ℚ :=
  if lag = 0 then 1
  else
    let s := listSum ((List.range lag).map (fun j => diffFn x (j + 1)))
    if s = 0 then 1 else diffFn x lag * lag / s

/-- Smallest candidate lag for the frequency search range. -/
def lagLo (sr : ℕ) (maxf : ℚ) : ℕ := max 2 (natCeil ((sr : ℚ) / maxf))

/-- Largest candidate lag for the frequency search range. -/
def lagHi (len : ℕ) (sr : ℕ) (minf : ℚ) : ℕ :=
  min (len - 1) (natFloor ((sr : ℚ) / minf))

/-- Candidate lags implied by the `[min_frequency, max_frequency]` bounds. -/
def lagRange (len : ℕ) (sr : ℕ) (minf maxf : ℚ) : List ℕ :=
  (List.range (lagHi len sr minf + 1)).filter (fun t => lagLo sr maxf ≤ t)

/-- Modelled from the spec: assembling a `PitchResultFFI` from a candidate;
`is_voiced` iff confidence reaches `min_confidence` and the frequency lies
within bounds, frequency zeroed when unvoiced. Detection that ran always
reports `success = true`. -/
def assemble (cfg : AnalysisConfigFFI) (freq conf vp : ℚ) : PitchResultFFI :=
  if cfg.min_confidence ≤ conf ∧ cfg.min_frequency ≤ freq ∧ freq ≤ cfg.max_frequency then
    ⟨true, freq, conf, true, vp⟩
  else
    ⟨true, 0, conf, false, vp⟩

/-- Algorithm variants coded by `AnalysisConfigFFI.algorithm`. -/
inductive Algorithm where
  | Auto
  | PYIN
  | YIN
  | Autocorr
deriving DecidableEq

/-- Decoding of the integer algorithm code (0=Auto, 1=PYIN, 2=YIN,
3=Autocorr); unrecognized codes map to Auto per the boundary contract. -/
def algOfCode : ℕ → Algorithm
  | 0 => Algorithm.Auto
  | 1 => Algorithm.PYIN
  | 2 => Algorithm.YIN
  | 3 => Algorithm.Autocorr
  | _ + 4 => Algorithm.Auto

/-- Modelled from the spec: autocorrelation pitch variant — normalized
autocorrelation peak picking within the lag range, confidence from the
normalized peak height. -/
def runAutocorr (cfg : AnalysisConfigFFI) (x : List ℚ) : PitchResultFFI :=
  match bestBy (fun t => acf x t) (lagRange x.length cfg.sample_rate cfg.min_frequency cfg.max_frequency) with
  | none => unvoicedPitch
  | some t =>
    if acf x 0 ≤ 0 then unvoicedPitch
    else
      assemble cfg ((cfg.sample_rate : ℚ) / (t : ℚ)) (clamp01 (acf x t / acf x 0))
        (clamp01 (acf x t / acf x 0))

/-- Modelled from the spec: parabolic interpolation of the CMNDF minimum
around an integer lag. -/
def parab (x : List ℚ) (t : ℕ) : ℚ :=
  if t < 2 then (t : ℚ)
  else
    let a := cmndf x (t - 1)
    let b := cmndf x t
    let c := cmndf x (t + 1)
    let d := a - 2 * b + c
    if d = 0 then (t : ℚ) else (t : ℚ) + (a - c) / (2 * d)

/-- Lag chosen by the YIN variant: first CMNDF dip below `threshold`, else
the global CMNDF minimum over the lag range. -/
def yinLagChoice (cfg : AnalysisConfigFFI) (x : List ℚ) : Option ℕ :=
  match (lagRange x.length cfg.sample_rate cfg.min_frequency cfg.max_frequency).find?
      (fun t => cmndf x t < cfg.threshold) with
  | some t => some t
  | none =>
    bestBy (fun t => -(cmndf x t))
      (lagRange x.length cfg.sample_rate cfg.min_frequency cfg.max_frequency)

/-- Modelled from the spec: YIN variant — first CMNDF dip below
`threshold`, else the global CMNDF minimum; optional parabolic
interpolation when `interpolate` is set; confidence is one minus the
CMNDF value. -/
def runYin (cfg : AnalysisConfigFFI) (x : List ℚ) : PitchResultFFI :=
  match yinLagChoice cfg x with
  | none => unvoicedPitch
  | some t =>
    assemble cfg
      ((cfg.sample_rate : ℚ) / (if cfg.interpolate then parab x t else (t : ℚ)))
      (clamp01 (1 - cmndf x t)) (clamp01 (1 - cmndf x t))

/-- Candidate weight of a lag for the probabilistic YIN layer. -/
def pyinWeight (x : List ℚ) (t : ℕ) : ℚ := clamp01 (1 - cmndf x t)

/-- Lags whose CMNDF dips below `threshold`. -/
def pyinDips (cfg : AnalysisConfigFFI) (x : List ℚ) : List ℕ :=
  (lagRange x.length cfg.sample_rate cfg.min_frequency cfg.max_frequency).filter
    (fun t => cmndf x t < cfg.threshold)

/-- Voicing probability of the probabilistic YIN layer: the candidate
weight fraction carried by the dips. -/
def pyinVp (cfg : AnalysisConfigFFI) (x : List ℚ) : ℚ :=
  if listSum ((lagRange x.length cfg.sample_rate cfg.min_frequency cfg.max_frequency).map
      (pyinWeight x)) ≤ 0 then 0
  else
    clamp01 (listSum ((pyinDips cfg x).map (pyinWeight x)) /
      listSum ((lagRange x.length cfg.sample_rate cfg.min_frequency cfg.max_frequency).map
        (pyinWeight x)))

/-- Modelled from the spec: pYIN variant — probabilistic weighting over the
candidate lags whose CMNDF dips below `threshold`; `voiced_probability` is
the weight fraction carried by the dips, distinct from `confidence`. -/
def runPyin (cfg : AnalysisConfigFFI) (x : List ℚ) : PitchResultFFI :=
  match bestBy (pyinWeight x)
      (if (pyinDips cfg x).isEmpty then
        lagRange x.length cfg.sample_rate cfg.min_frequency cfg.max_frequency
      else pyinDips cfg x) with
  | none => unvoicedPitch
  | some t => assemble cfg ((cfg.sample_rate : ℚ) / (t : ℚ)) (pyinWeight x t) (pyinVp cfg x)

/-- Modelled from the spec: one run of the selected pitch algorithm on one
frame. A frame shorter than two periods of `min_frequency` yields
`success = true` with `is_voiced = false` (detection ran, found nothing);
the Auto variant lets the engine pick (modelled as pYIN, the default). -/
def runAlgorithm (a : Algorithm) (cfg : AnalysisConfigFFI) (x : List ℚ) : PitchResultFFI :=
  if (x.length : ℚ) * cfg.min_frequency < 2 * (cfg.sample_rate : ℚ) then unvoicedPitch
  else
    match a with
    | Algorithm.Auto => runPyin cfg x
    | Algorithm.PYIN => runPyin cfg x
    | Algorithm.YIN => runYin cfg x
    | Algorithm.Autocorr => runAutocorr cfg x

/-- Modelled from the spec: the documented default configuration. The
concrete default values live in the Rust implementation, which is not in
src/; the values here are chosen to satisfy the §3 validity constraints
(frame_size 2048 ≥ hop_size 512 > 0, 0 < 65 < 2093 voice range,
algorithm 0 = Auto, threshold and min_confidence inside the unit
interval). -/
def loqa_analysis_config_default : AnalysisConfigFFI :=
  ⟨44100, 2048, 512, 65, 2093, 0, 1/10, 1/2, true⟩

/-- Modelled from the spec: configuration validity — frame_size ≥
hop_size > 0, 0 < min_frequency < max_frequency, positive sample rate,
algorithm code below 4, threshold and min_confidence in the unit
interval. -/
def validConfig (cfg : AnalysisConfigFFI) : Bool :=
  decide (0 < cfg.hop_size ∧ cfg.hop_size ≤ cfg.frame_size ∧
    0 < cfg.min_frequency ∧ cfg.min_frequency < cfg.max_frequency ∧
    0 < cfg.sample_rate ∧ cfg.algorithm < 4 ∧
    0 ≤ cfg.threshold ∧ cfg.threshold ≤ 1 ∧
    0 ≤ cfg.min_confidence ∧ cfg.min_confidence ≤ 1)

/-- Configuration used by the stateless `loqa_detect_pitch` entry point:
the documented defaults with the caller-supplied sample rate and frequency
bounds substituted in. -/
def cfgFor (sr : ℕ) (minf maxf : ℚ) : AnalysisConfigFFI :=
  { loqa_analysis_config_default with
      sample_rate := sr, min_frequency := minf, max_frequency := maxf,
      algorithm := 1 }

/-- Modelled from the spec: `loqa_detect_pitch` — the header pins this
entry point to the pYIN algorithm ("Pitch detection using pYIN algorithm");
contradictory bounds are rejected with `success = false`. -/
def loqa_detect_pitch (x : List ℚ) (sr : ℕ) (minf maxf : ℚ) : PitchResultFFI :=
  if 0 < minf ∧ minf < maxf ∧ 0 < sr then
    runAlgorithm Algorithm.PYIN (cfgFor sr minf maxf) x
  else failPitch

/-- Modelled from the spec: one detector run under a full configuration,
dispatching on the integer-coded algorithm; invalid configuration is
rejected at the point of use. -/
def detectWithConfig (cfg : AnalysisConfigFFI) (x : List ℚ) : PitchResultFFI :=
  if validConfig cfg then runAlgorithm (algOfCode cfg.algorithm) cfg x
  else failPitch

/-- State behind the opaque `void*` analyzer handle: configuration, rolling
sample buffer, and the frames-emitted counter. -/
structure AnalyzerState where
  config : AnalysisConfigFFI
  buffer : List ℚ
  frames_done : ℕ
deriving DecidableEq

/-- A freshly constructed analyzer state for a configuration: empty rolling
buffer, zero counters (the Idle state). -/
def freshAnalyzer (cfg : AnalysisConfigFFI) : AnalyzerState := ⟨cfg, [], 0⟩

/-- Modelled from the spec: `loqa_voice_analyzer_new` — malformed
configuration is rejected at construction (`none` models the null
handle). -/
def loqa_voice_analyzer_new (cfg : AnalysisConfigFFI) : Option AnalyzerState :=
  if validConfig cfg then some (freshAnalyzer cfg) else none

/-- Modelled from the spec: `loqa_voice_analyzer_reset` — clears the
rolling buffer and counters back to Idle, keeping the configuration. -/
def loqa_voice_analyzer_reset (st : AnalyzerState) : AnalyzerState :=
  ⟨st.config, [], 0⟩

/-- Modelled from the spec: `loqa_voice_analyzer_process_frame` — runs the
configured pitch algorithm once on exactly one frame and returns a single
result, bypassing the streaming state (the state component is returned
unchanged). -/
def loqa_voice_analyzer_process_frame (st : AnalyzerState) (samples : List ℚ) :
    PitchResultFFI × AnalyzerState :=
  (detectWithConfig st.config samples, st)

/-- Modelled from the spec: the emission loop of the streaming analyzer —
while at least `frame_size` samples are buffered and the caller-supplied
capacity is not exhausted, emit one estimate for the front frame and
consume `hop_size` samples. -/
def emitLoop (cfg : AnalysisConfigFFI) : ℕ → List ℚ → List PitchResultFFI × List ℚ
  | 0, buf => ([], buf)
  | k + 1, buf =>
    if cfg.frame_size ≤ buf.length then
      let r := detectWithConfig cfg (buf.take cfg.frame_size)
      let rest := emitLoop cfg k (buf.drop cfg.hop_size)
      (r :: rest.1, rest.2)
    else ([], buf)

/-- Modelled from the spec: `loqa_voice_analyzer_process_stream` — appends
the chunk to the rolling buffer, emits one result per complete hop advance
up to `max_results`, and keeps the leftover samples buffered. -/
def loqa_voice_analyzer_process_stream (st : AnalyzerState) (samples : List ℚ)
    (max_results : ℕ) : List PitchResultFFI × AnalyzerState :=
  let out := emitLoop st.config max_results (st.buffer ++ samples)
  (out.1, ⟨st.config, out.2, st.frames_done + out.1.length⟩)

/-- Number of complete frames available in a buffer of `n` samples under a
configuration: none below one frame, then one per hop advance. -/
def avail (cfg : AnalysisConfigFFI) (n : ℕ) : ℕ :=
  if n < cfg.frame_size then 0 else (n - cfg.frame_size) / cfg.hop_size + 1

/-- The complete frames of a buffer, front to back, one per hop advance. -/
def framesOf (cfg : AnalysisConfigFFI) (xs : List ℚ) : List (List ℚ) :=
  (List.range (avail cfg xs.length)).map
    (fun i => (xs.drop (i * cfg.hop_size)).take cfg.frame_size)

/-- Number of pitch bins discretizing `[min_frequency, max_frequency]` for
the Viterbi lattice (the exact quantization is an open implementation
choice per the spec). -/
def nBins : ℕ := 4

/-- Lattice states: pitch bins `0 .. nBins - 1` plus the explicit unvoiced
state `nBins`. -/
def statesList : List ℕ := List.range (nBins + 1)

/-- Center frequency of a pitch bin. -/
def binFreq (cfg : AnalysisConfigFFI) (b : ℕ) : ℚ :=
  cfg.min_frequency + (cfg.max_frequency - cfg.min_frequency) * (b : ℚ) / (nBins : ℚ)

/-- Modelled from the spec: emission score of a state at one frame
observation `(frequency, voiced probability)` — the unvoiced state scores
the complement of the voicing probability; a pitch bin scores the voicing
probability minus the normalized distance to the observed frequency. -/
def emitScore (cfg : AnalysisConfigFFI) (o : ℚ × ℚ) (s : ℕ) : ℚ :=
  if s = nBins then 1 - o.2
  else o.2 - |binFreq cfg s - o.1| / (cfg.max_frequency - cfg.min_frequency + 1)

/-- Modelled from the spec: transition score — penalizes pitch-bin jumps
between adjacent frames and voiced/unvoiced switching. -/
def transScore (s t : ℕ) : ℚ :=
  if s = nBins ∨ t = nBins then (if s = t then 0 else -(1/2))
  else -(((max s t - min s t : ℕ) : ℚ)) / (nBins : ℚ)

/-- One Viterbi column update: for each state, the best predecessor cell
extended by the transition and emission scores; each cell carries its score
and its reversed path. -/
def viterbiStep (em : ℚ × ℚ → ℕ → ℚ) (states : List ℕ)
    (prev : List (ℕ × ℚ × List ℕ)) (o : ℚ × ℚ) : List (ℕ × ℚ × List ℕ) :=
  states.map (fun t =>
    match bestBy (fun p => p.2.1 + transScore p.1 t) prev with
    | none => (t, em o t, [t])
    | some p => (t, p.2.1 + transScore p.1 t + em o t, t :: p.2.2))

/-- Modelled from the spec: Viterbi decoding — dynamic programming over the
state lattice, one column per frame observation, recovering the best path
by backtracking from the highest-scoring final cell. -/
def viterbi (em : ℚ × ℚ → ℕ → ℚ) (states : List ℕ) : List (ℚ × ℚ) → List ℕ
  | [] => []
  | o :: rest =>
    match bestBy (fun p : ℕ × ℚ × List ℕ => p.2.1)
        (rest.foldl (viterbiStep em states) (states.map (fun s => (s, em o s, [s])))) with
    | none => []
    | some p => p.2.2.reverse

/-- Modelled from the spec: `loqa_voice_analyzer_process_buffer` — frames
the whole buffer, runs the configured detector on every frame, Viterbi
decodes the per-frame observations into a globally consistent track, and
timestamps frame `i` at `i * hop_size / sample_rate` seconds. Fails on a
buffer shorter than one frame. -/
def loqa_voice_analyzer_process_buffer (st : AnalyzerState) (xs : List ℚ) :
    PitchTrackFFI :=
  let cfg := st.config
  if xs.length < cfg.frame_size then failTrack
  else
    let frames := framesOf cfg xs
    let obs := frames.map (fun fr =>
      let r := detectWithConfig cfg fr
      (r.frequency, r.voiced_probability))
    let path := viterbi (emitScore cfg) statesList obs
    { success := true
      pitch_track := path.map (fun s => if s = nBins then 0 else binFreq cfg s)
      voiced_probs := obs.map (fun o => o.2)
      timestamps := (List.range frames.length).map
        (fun i => ((i * cfg.hop_size : ℕ) : ℚ) / (cfg.sample_rate : ℚ))
      length := frames.length }

/-- Memory release of the analyzer handle; ownership is not representable
in the value-level model, so this is a no-op. -/
def loqa_voice_analyzer_free (_st : AnalyzerState) : Unit := ()

/-- Modelled from the spec: LPC root candidates as (frequency, bandwidth)
pairs. The true computation — complex roots of the LPC polynomial — is in
the Rust engine, not in src/, and is not expressible in exact rational
arithmetic; a correlation-peak surrogate stands in (frequency from the lag,
bandwidth from the correlation deficit). The qualifying filter and the
lowest-three selection below follow the spec exactly. -/
def lpcRootCandidates (x : List ℚ) (sr : ℕ) (order : ℕ) : List (ℚ × ℚ) :=
  let r0 := acf x 0
  (List.range (order + 1)).filterMap (fun t =>
    if 2 ≤ t ∧ 0 < r0 then
      let c := acf x t / r0
      if 0 < c then some ((sr : ℚ) / (t : ℚ), 1 - c) else none
    else none)

/-- Bandwidth quality threshold for a root to qualify as a formant. -/
def bwThreshold : ℚ := 9/10

/-- A candidate root qualifies when its frequency is positive (positive
imaginary part) and below Nyquist, and its bandwidth is below the quality
threshold. -/
def qualifies (sr : ℕ) (c : ℚ × ℚ) : Bool :=
  decide (0 < c.1 ∧ 2 * c.1 < (sr : ℚ) ∧ c.2 < bwThreshold)

/-- Insertion into a strictly ascending list, dropping duplicates. -/
def insertAsc (a : ℚ) : List ℚ → List ℚ
  | [] => [a]
  | b :: l => if a < b then a :: b :: l else if a = b then b :: l else b :: insertAsc a l

/-- Insertion sort into a strictly ascending list of distinct values. -/
def sortedDistinct : List ℚ → List ℚ
  | [] => []
  | a :: l => insertAsc a (sortedDistinct l)

/-- The distinct qualifying resonance frequencies, sorted ascending. -/
def qualifyingFreqs (x : List ℚ) (sr : ℕ) (order : ℕ) : List ℚ :=
  sortedDistinct (((lpcRootCandidates x sr order).filter (qualifies sr)).map
    (fun c => c.1))

/-- Modelled from the spec: `loqa_extract_formants` — fails when the LPC
order exceeds a safe fraction of the frame length or fewer than three
qualifying roots are found; otherwise returns the three lowest qualifying
resonance frequencies ascending, confidence 1 standing for root-selection
quality. -/
def loqa_extract_formants (x : List ℚ) (sr : ℕ) (order : ℕ) : FormantResultFFI :=
  if x.length < 2 * order ∨ order = 0 then failFormant
  else
    match qualifyingFreqs x sr order with
    | f1 :: f2 :: f3 :: _ => ⟨true, f1, f2, f3, 1⟩
    | _ => failFormant

/-- Whether a natural number is a supported (power-of-two) transform
length. -/
def isPow2 (n : ℕ) : Bool := (List.range (n + 1)).any (fun k => 2 ^ k == n)

/-- Modelled from the spec: surrogate magnitude of spectral bin `i` — the
true DFT magnitude needs trigonometric functions absent from rational
arithmetic; the absolute autocorrelation of the transform window stands in.
No claim depends on magnitude values. -/
def magSurrogate (x : List ℚ) (n : ℕ) (i : ℕ) : ℚ := |acf (x.take n) i|

/-- Modelled from the spec: `loqa_compute_fft` — fails when the transform
length is unsupported or the buffer is shorter than it; otherwise returns
one-sided magnitude and frequency arrays of equal length, bin `i` at
frequency `i * sample_rate / fft_size`. -/
def loqa_compute_fft (x : List ℚ) (sr : ℕ) (fft_size : ℕ) : FFTResultFFI :=
  if fft_size = 0 ∨ ¬isPow2 fft_size ∨ x.length < fft_size ∨ sr = 0 then failFFT
  else
    let half := fft_size / 2 + 1
    { success := true
      magnitudes := (List.range half).map (magSurrogate x fft_size)
      frequencies := (List.range half).map (fun i => ((i * sr : ℕ) : ℚ) / (fft_size : ℚ))
      length := half
      sample_rate := sr }

/-- Memory release of the FFT result; a no-op in the value-level model. -/
def loqa_free_fft_result (_r : FFTResultFFI) : Unit := ()

/-- Memory release of the pitch track; a no-op in the value-level model. -/
def loqa_free_pitch_track (_r : PitchTrackFFI) : Unit := ()

/-- Cumulative partial sums of a list of rationals (first entry is the
first element). -/
def cumSums (l : List ℚ) : List ℚ :=
  (List.range l.length).map (fun i => listSum (l.take (i + 1)))

/-- Modelled from the spec: `loqa_analyze_spectrum` — fails on a failed or
empty spectrum; centroid is the energy-weighted mean frequency; tilt is a
linear-fit slope of magnitude against frequency (a rational surrogate for
the log-log fit); rolloff_95 is the lowest bin frequency below which 95%
of cumulative spectral energy lies. -/
def loqa_analyze_spectrum (fft : FFTResultFFI) : SpectralFeaturesFFI :=
  if fft.success = false ∨ fft.length = 0 ∨ fft.magnitudes.isEmpty then failSpectral
  else
    let ms := fft.magnitudes
    let fs := fft.frequencies
    let total := listSum ms
    let centroid := if total ≤ 0 then 0 else listSum ((ms.zip fs).map (fun p => p.1 * p.2)) / total
    let n : ℚ := (ms.length : ℚ)
    let sf := listSum fs
    let sm := listSum ms
    let sfm := listSum ((fs.zip ms).map (fun p => p.1 * p.2))
    let sff := listSum (fs.map (fun f => f * f))
    let den := n * sff - sf * sf
    let tilt := if den = 0 then 0 else (n * sfm - sf * sm) / den
    let energies := ms.map (fun m => m * m)
    let etotal := listSum energies
    let rolloff :=
      match ((fs.zip (cumSums energies)).find? (fun p => decide (20 * p.2 ≥ 19 * etotal))) with
      | some p => p.1
      | none => fs.getLastD 0
    ⟨true, centroid, tilt, rolloff⟩

/-- Modelled from the spec: fundamental-frequency search by autocorrelation
within the lag bounds — `none` when the signal has no positive energy, no
candidate lag, or the normalized peak falls below the voicing threshold;
otherwise the winning lag and its normalized correlation. -/
def findF0 (x : List ℚ) (sr : ℕ) (minf maxf : ℚ) : Option (ℕ × ℚ) :=
  let r0 := acf x 0
  if r0 ≤ 0 then none
  else
    match bestBy (fun t => acf x t) (lagRange x.length sr minf maxf) with
    | none => none
    | some t =>
      let c := acf x t / r0
      if c < 3/10 then none else some (t, c)

/-- Modelled from the spec: `loqa_calculate_hnr` — rejects contradictory
bounds and too-short input with `success = false`; reports
`success = true` with a zeroed unvoiced payload when no reliable
periodicity is found; otherwise the harmonic-to-residual energy quotient
(the raw quotient stands in for its decibel image, a monotone transform
needing logarithms). -/
def loqa_calculate_hnr (x : List ℚ) (sr : ℕ) (minf maxf : ℚ) : HNRResultFFI :=
  if 0 < minf ∧ minf < maxf ∧ 0 < sr then
    if (x.length : ℚ) * minf < 2 * (sr : ℚ) then failHNR
    else
      match findF0 x sr minf maxf with
      | none => ⟨true, 0, 0, false⟩
      | some (t, c) => ⟨true, c / (1 - c), (sr : ℚ) / (t : ℚ), true⟩
  else failHNR

/-- Modelled from the spec: surrogate spectral amplitude of the harmonic at
a frequency — normalized autocorrelation at the corresponding lag (the true
measurement, in decibels from the spectrum, needs transcendental
functions). -/
def ampAt (x : List ℚ) (sr : ℕ) (f : ℚ) : ℚ :=
  if f ≤ 0 then 0
  else
    let r0 := acf x 0
    if r0 ≤ 0 then 0 else acf x (natFloor ((sr : ℚ) / f)) / r0

/-- Modelled from the spec: `loqa_calculate_h1h2` — rejects a zero sample
rate or too-short input with `success = false`; auto-detects the
fundamental when the caller passes `f0 = 0` and reports `success = true`
with a zeroed payload when none is found; otherwise the first and second
harmonic amplitudes and their difference. -/
def loqa_calculate_h1h2 (x : List ℚ) (sr : ℕ) (f0 : ℚ) : H1H2ResultFFI :=
  if sr = 0 then failH1H2
  else if (x.length : ℚ) * loqa_analysis_config_default.min_frequency < 2 * (sr : ℚ) then
    failH1H2
  else
    let of0 : Option ℚ :=
      if f0 = 0 then
        (findF0 x sr loqa_analysis_config_default.min_frequency
          loqa_analysis_config_default.max_frequency).map
          (fun p => (sr : ℚ) / (p.1 : ℚ))
      else some f0
    match of0 with
    | none => ⟨true, 0, 0, 0, 0⟩
    | some f =>
      let h1 := ampAt x sr f
      let h2 := ampAt x sr (2 * f)
      ⟨true, h1 - h2, h1, h2, f⟩

/-- A small valid streaming configuration used to instantiate the general
theorems at concrete inputs. -/
def streamCfg : AnalysisConfigFFI := ⟨10, 4, 2, 2, 5, 1, 1/10, 1/2, false⟩

/-- A concrete period-3 sample buffer. -/
def periodicSig : List ℚ := [1, 0, 0, 1, 0, 0, 1, 0, 0, 1]

/-- A concrete silent sample buffer. -/
def silentSig : List ℚ := List.replicate 10 0

/-- A concrete constant sample buffer. -/
def flatSig : List ℚ := List.replicate 10 1

/-- A concrete analyzer state with a non-empty rolling buffer and non-zero
counter. -/
def dirtyState : AnalyzerState := ⟨streamCfg, [5, 5, 5], 7⟩

theorem assemble_success (cfg : AnalysisConfigFFI) (freq conf vp : ℚ) :
    (assemble cfg freq conf vp).success = true := by
  unfold assemble
  split <;> rfl

theorem runAutocorr_success (cfg : AnalysisConfigFFI) (x : List ℚ) :
    (runAutocorr cfg x).success = true := by
  unfold runAutocorr
  split
  · rfl
  · split
    · rfl
    · exact assemble_success ..

theorem runYin_success (cfg : AnalysisConfigFFI) (x : List ℚ) :
    (runYin cfg x).success = true := by
  unfold runYin
  split
  · rfl
  · exact assemble_success ..

theorem runPyin_success (cfg : AnalysisConfigFFI) (x : List ℚ) :
    (runPyin cfg x).success = true := by
  unfold runPyin
  split
  · rfl
  · exact assemble_success ..

theorem runAlgorithm_success (a : Algorithm) (cfg : AnalysisConfigFFI) (x : List ℚ) :
    (runAlgorithm a cfg x).success = true := by
  unfold runAlgorithm
  split
  · rfl
  · cases a
    · exact runPyin_success ..
    · exact runPyin_success ..
    · exact runYin_success ..
    · exact runAutocorr_success ..

theorem detect_pitch_failZero (x : List ℚ) (sr : ℕ) (minf maxf : ℚ)
    (h : (loqa_detect_pitch x sr minf maxf).success = false) :
    loqa_detect_pitch x sr minf maxf = failPitch := by
  unfold loqa_detect_pitch at h ⊢
  split at h
  · rw [runAlgorithm_success] at h
    cases h
  · split
    · rename_i hc hc2
      exact absurd hc2 hc
    · rfl

theorem detectWithConfig_failZero (cfg : AnalysisConfigFFI) (x : List ℚ)
    (h : (detectWithConfig cfg x).success = false) :
    detectWithConfig cfg x = failPitch := by
  unfold detectWithConfig at h ⊢
  split at h
  · rw [runAlgorithm_success] at h
    cases h
  · split
    · rename_i hc hc2
      exact absurd hc2 hc
    · rfl

theorem extract_formants_failZero (x : List ℚ) (sr : ℕ) (order : ℕ)
    (h : (loqa_extract_formants x sr order).success = false) :
    loqa_extract_formants x sr order = failFormant := by
  by_cases hg : x.length < 2 * order ∨ order = 0
  · simp [loqa_extract_formants, hg]
  · rcases hq : qualifyingFreqs x sr order with _ | ⟨f1, _ | ⟨f2, _ | ⟨f3, rest⟩⟩⟩
    · simp [loqa_extract_formants, hg, hq]
    · simp [loqa_extract_formants, hg, hq]
    · simp [loqa_extract_formants, hg, hq]
    · exfalso
      simp [loqa_extract_formants, hg, hq] at h

theorem compute_fft_failZero (x : List ℚ) (sr : ℕ) (n : ℕ)
    (h : (loqa_compute_fft x sr n).success = false) :
    loqa_compute_fft x sr n = failFFT := by
  unfold loqa_compute_fft at h ⊢
  split at h
  · split
    · rfl
    · rename_i hc hc2
      exact absurd hc hc2
  · cases h

theorem analyze_spectrum_failZero (r : FFTResultFFI)
    (h : (loqa_analyze_spectrum r).success = false) :
    loqa_analyze_spectrum r = failSpectral := by
  unfold loqa_analyze_spectrum at h ⊢
  split at h
  · split
    · rfl
    · rename_i hc hc2
      exact absurd hc hc2
  · cases h

theorem calculate_hnr_failZero (x : List ℚ) (sr : ℕ) (minf maxf : ℚ)
    (h : (loqa_calculate_hnr x sr minf maxf).success = false) :
    loqa_calculate_hnr x sr minf maxf = failHNR := by
  by_cases h1 : 0 < minf ∧ minf < maxf ∧ 0 < sr
  · by_cases h2 : (x.length : ℚ) * minf < 2 * (sr : ℚ)
    · simp [loqa_calculate_hnr, h1, h2]
    · exfalso
      rcases hf : findF0 x sr minf maxf with _ | ⟨t, c⟩ <;>
        simp [loqa_calculate_hnr, h1, h2, hf] at h
  · simp [loqa_calculate_hnr, h1]

theorem calculate_h1h2_failZero (x : List ℚ) (sr : ℕ) (f0 : ℚ)
    (h : (loqa_calculate_h1h2 x sr f0).success = false) :
    loqa_calculate_h1h2 x sr f0 = failH1H2 := by
  by_cases h1 : sr = 0
  · simp [loqa_calculate_h1h2, h1]
  · by_cases h2 : (x.length : ℚ) * loqa_analysis_config_default.min_frequency < 2 * (sr : ℚ)
    · simp [loqa_calculate_h1h2, h1, h2]
    · exfalso
      by_cases h3 : f0 = 0
      · rcases hf : findF0 x sr loqa_analysis_config_default.min_frequency
            loqa_analysis_config_default.max_frequency with _ | ⟨t, c⟩ <;>
          simp [loqa_calculate_h1h2, h1, h2, h3, hf] at h
      · simp [loqa_calculate_h1h2, h1, h2, h3] at h

theorem process_buffer_failZero (st : AnalyzerState) (xs : List ℚ)
    (h : (loqa_voice_analyzer_process_buffer st xs).success = false) :
    loqa_voice_analyzer_process_buffer st xs = failTrack := by
  by_cases hlen : xs.length < st.config.frame_size
  · simp [loqa_voice_analyzer_process_buffer, hlen]
  · exfalso
    simp [loqa_voice_analyzer_process_buffer, hlen] at h

theorem bestBy_foldl_mem {α : Type} (f : α → ℚ) :
    ∀ (l : List α) (acc : Option α) (a : α),
      l.foldl
        (fun acc a =>
          match acc with
          | none => some a
          | some b => if f b < f a then some a else some b)
        acc = some a →
      a ∈ l ∨ acc = some a := by
  intro l
  induction l with
  | nil =>
    intro acc a h
    exact Or.inr h
  | cons x xs ih =>
    intro acc a h
    rw [List.foldl_cons] at h
    rcases ih _ a h with hmem | hacc
    · exact Or.inl (List.mem_cons_of_mem x hmem)
    · cases acc with
      | none =>
        simp only [] at hacc
        exact Or.inl (by rw [← Option.some.inj hacc]; exact List.mem_cons_self x xs)
      | some b =>
        simp only [] at hacc
        by_cases hlt : f b < f x
        · rw [if_pos hlt] at hacc
          exact Or.inl (by rw [← Option.some.inj hacc]; exact List.mem_cons_self x xs)
        · rw [if_neg hlt] at hacc
          exact Or.inr hacc

theorem bestBy_mem {α : Type} (f : α → ℚ) (l : List α) (a : α)
    (h : bestBy f l = some a) : a ∈ l := by
  rcases bestBy_foldl_mem f l none a h with hm | hn
  · exact hm
  · cases hn

theorem bestBy_foldl_isSome {α : Type} (f : α → ℚ) :
    ∀ (l : List α) (acc : Option α), acc.isSome →
      (l.foldl
        (fun acc a =>
          match acc with
          | none => some a
          | some b => if f b < f a then some a else some b)
        acc).isSome := by
  intro l
  induction l with
  | nil =>
    intro acc h
    exact h
  | cons x xs ih =>
    intro acc h
    rw [List.foldl_cons]
    apply ih
    cases acc with
    | none => cases h
    | some b =>
      simp only []
      by_cases hlt : f b < f x
      · rw [if_pos hlt]; rfl
      · rw [if_neg hlt]; rfl

theorem bestBy_isSome {α : Type} (f : α → ℚ) (l : List α) (h : l ≠ []) :
    (bestBy f l).isSome := by
  cases l with
  | nil => exact absurd rfl h
  | cons x xs =>
    unfold bestBy
    rw [List.foldl_cons]
    exact bestBy_foldl_isSome f xs (some x) rfl

theorem emitLoop_length (cfg : AnalysisConfigFFI) (hf : 0 < cfg.frame_size)
    (hh : 0 < cfg.hop_size) :
    ∀ (k : ℕ) (buf : List ℚ),
      ((emitLoop cfg k buf).1).length = min k (avail cfg buf.length) := by
  intro k
  induction k with
  | zero =>
    intro buf
    simp [emitLoop]
  | succ k ih =>
    intro buf
    by_cases hc : cfg.frame_size ≤ buf.length
    · have hbody :
          ((emitLoop cfg (k + 1) buf).1).length
            = ((emitLoop cfg k (buf.drop cfg.hop_size)).1).length + 1 := by
        simp [emitLoop, hc]
      rw [hbody, ih, List.length_drop]
      by_cases hc2 : cfg.frame_size ≤ buf.length - cfg.hop_size
      · have h1 : cfg.hop_size ≤ buf.length - cfg.frame_size := by omega
        have h2 : avail cfg buf.length = avail cfg (buf.length - cfg.hop_size) + 1 := by
          unfold avail
          rw [if_neg (by omega), if_neg (by omega), Nat.div_eq_sub_div hh h1]
          have h3 : buf.length - cfg.hop_size - cfg.frame_size
              = buf.length - cfg.frame_size - cfg.hop_size := by omega
          rw [h3]
        rw [h2, Nat.succ_min_succ]
      · have h2 : avail cfg (buf.length - cfg.hop_size) = 0 := by
          unfold avail
          rw [if_pos (by omega)]
        have h3 : avail cfg buf.length = 1 := by
          unfold avail
          rw [if_neg (by omega), Nat.div_eq_of_lt (by omega)]
        rw [h2, h3, Nat.succ_min_succ]
    · have hbody : (emitLoop cfg (k + 1) buf).1 = [] := by
        simp [emitLoop, hc]
      have h2 : avail cfg buf.length = 0 := by
        unfold avail
        rw [if_pos (by omega)]
      rw [hbody, h2]
      simp

theorem viterbiStep_paths (em : ℚ × ℚ → ℕ → ℚ) (states : List ℕ)
    (prev : List (ℕ × ℚ × List ℕ)) (o : ℚ × ℚ) (n : ℕ)
    (hne : prev ≠ []) (hall : ∀ p ∈ prev, p.2.2.length = n) :
    ∀ q ∈ viterbiStep em states prev o, q.2.2.length = n + 1 := by
  intro q hq
  simp only [viterbiStep, List.mem_map] at hq
  obtain ⟨t, _, rfl⟩ := hq
  cases hbb : bestBy (fun p => p.2.1 + transScore p.1 t) prev with
  | none =>
    have hsome := bestBy_isSome (fun p => p.2.1 + transScore p.1 t) prev hne
    rw [hbb] at hsome
    cases hsome
  | some p =>
    have hp : p ∈ prev := bestBy_mem _ prev p hbb
    simp only [hbb]
    simp [hall p hp]

theorem viterbiFold_paths (em : ℚ × ℚ → ℕ → ℚ) (states : List ℕ)
    (hs : states ≠ []) :
    ∀ (obs : List (ℚ × ℚ)) (tbl : List (ℕ × ℚ × List ℕ)) (n : ℕ),
      tbl ≠ [] → (∀ p ∈ tbl, p.2.2.length = n) →
      obs.foldl (viterbiStep em states) tbl ≠ []
        ∧ ∀ p ∈ obs.foldl (viterbiStep em states) tbl, p.2.2.length = n + obs.length := by
  intro obs
  induction obs with
  | nil =>
    intro tbl n h1 h2
    exact ⟨h1, by simpa using h2⟩
  | cons o os ih =>
    intro tbl n h1 h2
    have hstep_ne : viterbiStep em states tbl o ≠ [] := by
      simp only [viterbiStep]
      simpa using hs
    have hstep_all := viterbiStep_paths em states tbl o n h1 h2
    obtain ⟨hne, hall⟩ := ih (viterbiStep em states tbl o) (n + 1) hstep_ne hstep_all
    rw [List.foldl_cons]
    refine ⟨hne, ?_⟩
    intro p hp
    have := hall p hp
    simp only [List.length_cons]
    omega

theorem viterbi_length (em : ℚ × ℚ → ℕ → ℚ) (states : List ℕ)
    (hs : states ≠ []) (obs : List (ℚ × ℚ)) :
    (viterbi em states obs).length = obs.length := by
  cases obs with
  | nil => rfl
  | cons o rest =>
    have hinit_ne : (states.map fun s => (s, em o s, [s])) ≠ [] := by
      simpa using hs
    have hinit_all : ∀ p ∈ states.map (fun s => (s, em o s, ([s] : List ℕ))),
        p.2.2.length = 1 := by
      intro p hp
      simp only [List.mem_map] at hp
      obtain ⟨s, _, rfl⟩ := hp
      rfl
    obtain ⟨hne, hall⟩ :=
      viterbiFold_paths em states hs rest
        (states.map fun s => (s, em o s, [s])) 1 hinit_ne hinit_all
    simp only [viterbi]
    cases hbb : bestBy (fun p : ℕ × ℚ × List ℕ => p.2.1)
        (rest.foldl (viterbiStep em states) (states.map fun s => (s, em o s, [s]))) with
    | none =>
      have hsome := bestBy_isSome (fun p : ℕ × ℚ × List ℕ => p.2.1)
        (rest.foldl (viterbiStep em states) (states.map fun s => (s, em o s, [s]))) hne
      rw [hbb] at hsome
      cases hsome
    | some p =>
      have hp := bestBy_mem _ _ p hbb
      have hlen := hall p hp
      simp only [hbb, List.length_reverse, List.length_cons]
      rw [hlen]
      omega

/-- C1: for every exported analysis operation and every input, the returned
result record has the success indicator as its first field, and whenever
that indicator is false every other field of the record equals the type's
zero/default value. -/
theorem results_success_first_and_zero_on_failure :
    (PitchResultFFI_fields.head? = some "success"
      ∧ FormantResultFFI_fields.head? = some "success"
      ∧ FFTResultFFI_fields.head? = some "success"
      ∧ SpectralFeaturesFFI_fields.head? = some "success"
      ∧ HNRResultFFI_fields.head? = some "success"
      ∧ H1H2ResultFFI_fields.head? = some "success"
      ∧ PitchTrackFFI_fields.head? = some "success")
    ∧ (∀ (x : List ℚ) (sr : ℕ) (minf maxf : ℚ),
        (loqa_detect_pitch x sr minf maxf).success = false →
        loqa_detect_pitch x sr minf maxf = failPitch)
    ∧ (∀ (x : List ℚ) (sr order : ℕ),
        (loqa_extract_formants x sr order).success = false →
        loqa_extract_formants x sr order = failFormant)
    ∧ (∀ (x : List ℚ) (sr n : ℕ),
        (loqa_compute_fft x sr n).success = false →
        loqa_compute_fft x sr n = failFFT)
    ∧ (∀ r : FFTResultFFI,
        (loqa_analyze_spectrum r).success = false →
        loqa_analyze_spectrum r = failSpectral)
    ∧ (∀ (x : List ℚ) (sr : ℕ) (minf maxf : ℚ),
        (loqa_calculate_hnr x sr minf maxf).success = false →
        loqa_calculate_hnr x sr minf maxf = failHNR)
    ∧ (∀ (x : List ℚ) (sr : ℕ) (f0 : ℚ),
        (loqa_calculate_h1h2 x sr f0).success = false →
        loqa_calculate_h1h2 x sr f0 = failH1H2)
    ∧ (∀ (st : AnalyzerState) (s : List ℚ),
        ((loqa_voice_analyzer_process_frame st s).1).success = false →
        (loqa_voice_analyzer_process_frame st s).1 = failPitch)
    ∧ (∀ (st : AnalyzerState) (xs : List ℚ),
        (loqa_voice_analyzer_process_buffer st xs).success = false →
        loqa_voice_analyzer_process_buffer st xs = failTrack) :=
  ⟨⟨rfl, rfl, rfl, rfl, rfl, rfl, rfl⟩,
    detect_pitch_failZero,
    extract_formants_failZero,
    compute_fft_failZero,
    analyze_spectrum_failZero,
    calculate_hnr_failZero,
    calculate_h1h2_failZero,
    fun st s h => detectWithConfig_failZero st.config s h,
    process_buffer_failZero⟩

/-- Witness for C1: formant extraction on an empty buffer fails, and the
failed result is the zeroed record. -/
theorem results_success_first_and_zero_on_failure_witness :
    (loqa_extract_formants [] 100 0).success = false
      ∧ loqa_extract_formants [] 100 0 = failFormant :=
  ⟨by decide, results_success_first_and_zero_on_failure.2.2.1 [] 100 0 (by decide)⟩

/-- C5: an input frame shorter than two periods of `min_frequency` makes
pitch detection return success with `is_voiced = false` (the unvoiced
zeroed record) rather than failing. -/
theorem detect_pitch_short_frame_unvoiced_success (x : List ℚ) (sr : ℕ)
    (minf maxf : ℚ) (h1 : 0 < minf) (h2 : minf < maxf) (h3 : 0 < sr)
    (hshort : (x.length : ℚ) * minf < 2 * (sr : ℚ)) :
    (loqa_detect_pitch x sr minf maxf).success = true
      ∧ (loqa_detect_pitch x sr minf maxf).is_voiced = false
      ∧ loqa_detect_pitch x sr minf maxf = unvoicedPitch := by
  have heq : loqa_detect_pitch x sr minf maxf = unvoicedPitch := by
    unfold loqa_detect_pitch
    rw [if_pos ⟨h1, h2, h3⟩]
    show (if (x.length : ℚ) * minf < 2 * (sr : ℚ) then unvoicedPitch
      else match Algorithm.PYIN with
        | Algorithm.Auto => runPyin (cfgFor sr minf maxf) x
        | Algorithm.PYIN => runPyin (cfgFor sr minf maxf) x
        | Algorithm.YIN => runYin (cfgFor sr minf maxf) x
        | Algorithm.Autocorr => runAutocorr (cfgFor sr minf maxf) x) = unvoicedPitch
    rw [if_pos hshort]
  exact ⟨by rw [heq]; rfl, by rw [heq]; rfl, heq⟩

/-- Witness for C5: a two-sample frame at 10 Hz sample rate with a 2 Hz
lower bound is shorter than two periods and yields a successful unvoiced
result. -/
theorem detect_pitch_short_frame_unvoiced_success_witness :
    (((([1, 1] : List ℚ).length : ℚ) * 2 < 2 * ((10 : ℕ) : ℚ))
      ∧ (loqa_detect_pitch [1, 1] 10 2 5).success = true) :=
  ⟨by norm_num,
    (detect_pitch_short_frame_unvoiced_success [1, 1] 10 2 5 (by norm_num)
      (by norm_num) (by norm_num) (by norm_num)).1⟩

/-- C7: `process_frame` returns a single pitch estimate and leaves the
analyzer state (rolling buffer and counters) unchanged, so a subsequent
`process_stream` behaves exactly as if `process_frame` had not been
called. -/
theorem process_frame_leaves_state_unchanged (st : AnalyzerState) (s : List ℚ) :
    (loqa_voice_analyzer_process_frame st s).2 = st
      ∧ (loqa_voice_analyzer_process_frame st s).1 = detectWithConfig st.config s
      ∧ ∀ (inp : List ℚ) (m : ℕ),
          loqa_voice_analyzer_process_stream (loqa_voice_analyzer_process_frame st s).2 inp m
            = loqa_voice_analyzer_process_stream st inp m :=
  ⟨rfl, rfl, fun _ _ => rfl⟩

/-- C10: the default configuration satisfies the documented validity
constraints and is accepted by the analyzer constructor, which returns a
non-null handle for it. -/
theorem default_config_valid_and_accepted :
    (0 < loqa_analysis_config_default.hop_size
      ∧ loqa_analysis_config_default.hop_size ≤ loqa_analysis_config_default.frame_size
      ∧ 0 < loqa_analysis_config_default.min_frequency
      ∧ loqa_analysis_config_default.min_frequency < loqa_analysis_config_default.max_frequency
      ∧ loqa_analysis_config_default.algorithm < 4
      ∧ 0 ≤ loqa_analysis_config_default.threshold
      ∧ loqa_analysis_config_default.threshold ≤ 1
      ∧ 0 ≤ loqa_analysis_config_default.min_confidence
      ∧ loqa_analysis_config_default.min_confidence ≤ 1)
    ∧ validConfig loqa_analysis_config_default = true
    ∧ loqa_voice_analyzer_new loqa_analysis_config_default
        = some (freshAnalyzer loqa_analysis_config_default) := by
  decide

/-- C3 (amended): on a fresh analyzer, a single `process_stream` call
returns at most `max_results` results, and the count equals the minimum of
`max_results` and the number of complete frames — `(len - frame_size) /
hop_size + 1` when at least one frame fits, zero otherwise. The claimed
formula `len / hop_size` holds only when `frame_size = hop_size`. -/
theorem process_stream_count_formula (cfg : AnalysisConfigFFI) (samples : List ℚ)
    (m : ℕ) (hv : validConfig cfg = true) :
    (loqa_voice_analyzer_process_stream (freshAnalyzer cfg) samples m).1.length
        = min m (avail cfg samples.length)
      ∧ (loqa_voice_analyzer_process_stream (freshAnalyzer cfg) samples m).1.length ≤ m := by
  have hprops := of_decide_eq_true hv
  have hh : 0 < cfg.hop_size := hprops.1
  have hf : 0 < cfg.frame_size := lt_of_lt_of_le hh hprops.2.1
  have hc := emitLoop_length cfg hf hh m ([] ++ samples)
  rw [List.nil_append] at hc
  constructor
  · exact hc
  · rw [show (loqa_voice_analyzer_process_stream (freshAnalyzer cfg) samples m).1
        = (emitLoop cfg m samples).1 from rfl, hc]
    exact Nat.min_le_left m (avail cfg samples.length)

/-- Witness for C3's amended count formula: eight samples through the small
valid configuration yield exactly `min 8 (avail streamCfg 8) = 3`
results. -/
theorem process_stream_count_formula_witness :
    validConfig streamCfg = true
      ∧ (loqa_voice_analyzer_process_stream (freshAnalyzer streamCfg)
          [1, 0, 1, 0, 1, 0, 1, 0] 8).1.length = min 8 (avail streamCfg 8) :=
  ⟨by decide,
    (process_stream_count_formula streamCfg [1, 0, 1, 0, 1, 0, 1, 0] 8 (by decide)).1⟩

/-- Counterexample to C3 as stated: with the valid configuration
`streamCfg` (frame_size 4, hop_size 2) freshly constructed, a single
uninterrupted `process_stream` call on two samples returns zero results,
not `floor(2 / hop_size) = 1`. -/
theorem process_stream_count_claim_false :
    loqa_voice_analyzer_new streamCfg = some (freshAnalyzer streamCfg)
      ∧ (loqa_voice_analyzer_process_stream (freshAnalyzer streamCfg) [0, 0] 8).1.length
          ≠ ([0, 0] : List ℚ).length / streamCfg.hop_size := by
  constructor
  · decide
  · decide

/-- C6: `reset` followed by `process_stream` reproduces the output sequence
of a freshly constructed analyzer with the same configuration on the same
input. -/
theorem reset_then_stream_matches_fresh (st fresh : AnalyzerState)
    (h : loqa_voice_analyzer_new st.config = some fresh) (inp : List ℚ) (m : ℕ) :
    (loqa_voice_analyzer_process_stream (loqa_voice_analyzer_reset st) inp m).1
      = (loqa_voice_analyzer_process_stream fresh inp m).1 := by
  have hfresh : fresh = freshAnalyzer st.config := by
    unfold loqa_voice_analyzer_new at h
    split at h
    · exact (Option.some.inj h).symm
    · cases h
  rw [hfresh]
  rfl

/-- Witness for C6: a dirty analyzer state (non-empty buffer, non-zero
counter) reset and streamed matches the fresh analyzer on the same
input. -/
theorem reset_then_stream_matches_fresh_witness :
    (loqa_voice_analyzer_process_stream (loqa_voice_analyzer_reset dirtyState) [1, 2, 3] 5).1
      = (loqa_voice_analyzer_process_stream (freshAnalyzer streamCfg) [1, 2, 3] 5).1 :=
  reset_then_stream_matches_fresh dirtyState (freshAnalyzer streamCfg) (by decide) [1, 2, 3] 5

/-- C2: on an input in which the fundamental-frequency search finds no
periodicity (silent or unvoiced, and long enough for the algorithms to
run), HNR and H1-H2 report success with an unvoiced/zeroed payload instead
of failing. -/
theorem hnr_h1h2_graceful_on_unvoiced (x : List ℚ) (sr : ℕ) (minf maxf : ℚ)
    (hb : 0 < minf ∧ minf < maxf ∧ 0 < sr)
    (hlen : ¬((x.length : ℚ) * minf < 2 * (sr : ℚ)))
    (hf : findF0 x sr minf maxf = none)
    (hlen2 : ¬((x.length : ℚ) * loqa_analysis_config_default.min_frequency < 2 * (sr : ℚ)))
    (hf2 : findF0 x sr loqa_analysis_config_default.min_frequency
      loqa_analysis_config_default.max_frequency = none) :
    loqa_calculate_hnr x sr minf maxf = ⟨true, 0, 0, false⟩
      ∧ loqa_calculate_h1h2 x sr 0 = ⟨true, 0, 0, 0, 0⟩ := by
  have hsr : ¬(sr = 0) := by
    intro h0
    exact absurd hb.2.2 (by omega)
  constructor
  · unfold loqa_calculate_hnr
    rw [if_pos hb, if_neg hlen, hf]
  · unfold loqa_calculate_h1h2
    rw [if_neg hsr, if_neg hlen2, if_pos rfl, hf2]
    rfl

/-- Witness for C2: ten silent samples at a 10 Hz sample rate with the
2-5 Hz search band are long enough, yield no periodicity, and both
operations return the successful zeroed records. -/
theorem hnr_h1h2_graceful_on_unvoiced_witness :
    loqa_calculate_hnr silentSig 10 2 5 = ⟨true, 0, 0, false⟩
      ∧ loqa_calculate_h1h2 silentSig 10 0 = ⟨true, 0, 0, 0, 0⟩ :=
  hnr_h1h2_graceful_on_unvoiced silentSig 10 2 5 (by decide) (by decide) (by decide)
    (by decide) (by decide)

/-- C4 (amended): the stateless `loqa_detect_pitch` computes the pYIN
variant only — the header gives it no algorithm parameter; the four
variants Auto/pYIN/YIN/Autocorrelation are selectable through
`AnalysisConfigFFI.algorithm` (codes 0–3) consumed by the stateful
analyzer's per-frame detection. -/
theorem pitch_algorithm_selection_via_config :
    (∀ (x : List ℚ) (sr : ℕ) (minf maxf : ℚ), 0 < minf → minf < maxf → 0 < sr →
        loqa_detect_pitch x sr minf maxf = runAlgorithm Algorithm.PYIN (cfgFor sr minf maxf) x)
      ∧ (algOfCode 0 = Algorithm.Auto ∧ algOfCode 1 = Algorithm.PYIN
          ∧ algOfCode 2 = Algorithm.YIN ∧ algOfCode 3 = Algorithm.Autocorr)
      ∧ (∀ (cfg : AnalysisConfigFFI) (x : List ℚ), validConfig cfg = true →
          detectWithConfig cfg x = runAlgorithm (algOfCode cfg.algorithm) cfg x)
      ∧ (∀ (st : AnalyzerState) (s : List ℚ),
          (loqa_voice_analyzer_process_frame st s).1 = detectWithConfig st.config s) := by
  refine ⟨?_, ⟨rfl, rfl, rfl, rfl⟩, ?_, fun _ _ => rfl⟩
  · intro x sr minf maxf h1 h2 h3
    unfold loqa_detect_pitch
    rw [if_pos ⟨h1, h2, h3⟩]
  · intro cfg x hv
    unfold detectWithConfig
    rw [if_pos hv]

/-- Witness for C4's amended statement: at a concrete input with valid
bounds, the stateless entry point equals the pYIN variant run. -/
theorem pitch_algorithm_selection_via_config_witness :
    loqa_detect_pitch periodicSig 10 2 5
      = runAlgorithm Algorithm.PYIN (cfgFor 10 2 5) periodicSig :=
  pitch_algorithm_selection_via_config.1 periodicSig 10 2 5 (by decide) (by decide)
    (by decide)

/-- Counterexample to C4 as stated: `loqa_detect_pitch` offers no algorithm
parameter (its header parameter list has none), and on a concrete
period-3 input its result is the pYIN variant's and differs from the
Autocorrelation variant's — so the exported per-frame operation is not
computed by a caller-selectable variant. -/
theorem detect_pitch_algorithm_not_selectable :
    ("algorithm" ∉ loqa_detect_pitch_params)
      ∧ loqa_detect_pitch periodicSig 10 2 5
          = runAlgorithm Algorithm.PYIN (cfgFor 10 2 5) periodicSig
      ∧ loqa_detect_pitch periodicSig 10 2 5
          ≠ runAlgorithm Algorithm.Autocorr (cfgFor 10 2 5) periodicSig := by
  refine ⟨by decide, by decide, by decide⟩

theorem insertAsc_mem (a c : ℚ) :
    ∀ l : List ℚ, c ∈ insertAsc a l → c = a ∨ c ∈ l := by
  intro l
  induction l with
  | nil =>
    intro h
    exact Or.inl (List.mem_singleton.mp h)
  | cons b l ih =>
    intro h
    unfold insertAsc at h
    by_cases h1 : a < b
    · rw [if_pos h1] at h
      rcases List.mem_cons.mp h with h | h
      · exact Or.inl h
      · exact Or.inr h
    · rw [if_neg h1] at h
      by_cases h2 : a = b
      · rw [if_pos h2] at h
        exact Or.inr h
      · rw [if_neg h2] at h
        rcases List.mem_cons.mp h with h | h
        · exact Or.inr (h ▸ List.mem_cons_self b l)
        · rcases ih h with h3 | h3
          · exact Or.inl h3
          · exact Or.inr (List.mem_cons_of_mem b h3)

theorem insertAsc_sorted (a : ℚ) :
    ∀ l : List ℚ, List.Sorted (· < ·) l → List.Sorted (· < ·) (insertAsc a l) := by
  intro l
  induction l with
  | nil =>
    intro _
    simp [insertAsc]
  | cons b l ih =>
    intro h
    rcases List.sorted_cons.mp h with ⟨hb, hl⟩
    unfold insertAsc
    by_cases h1 : a < b
    · rw [if_pos h1]
      refine List.sorted_cons.mpr ⟨?_, h⟩
      intro c hc
      rcases List.mem_cons.mp hc with hc | hc
      · rw [hc]
        exact h1
      · exact lt_trans h1 (hb c hc)
    · rw [if_neg h1]
      by_cases h2 : a = b
      · rw [if_pos h2]
        exact h
      · rw [if_neg h2]
        refine List.sorted_cons.mpr ⟨?_, ih hl⟩
        intro c hc
        rcases insertAsc_mem a c l hc with hc2 | hc2
        · rw [hc2]
          exact lt_of_le_of_ne (not_lt.mp h1) (fun hba => h2 hba.symm)
        · exact hb c hc2

theorem sortedDistinct_sorted :
    ∀ l : List ℚ, List.Sorted (· < ·) (sortedDistinct l) := by
  intro l
  induction l with
  | nil => simp [sortedDistinct]
  | cons a l ih => exact insertAsc_sorted a (sortedDistinct l) ih

/-- C8: whenever formant extraction succeeds, the reported `f1 < f2 < f3`
are ascending and are exactly the three lowest qualifying resonance
frequencies of the model's candidate roots. -/
theorem formants_ascending_lowest_three (x : List ℚ) (sr order : ℕ)
    (h : (loqa_extract_formants x sr order).success = true) :
    (loqa_extract_formants x sr order).f1 < (loqa_extract_formants x sr order).f2
      ∧ (loqa_extract_formants x sr order).f2 < (loqa_extract_formants x sr order).f3
      ∧ [(loqa_extract_formants x sr order).f1,
          (loqa_extract_formants x sr order).f2,
          (loqa_extract_formants x sr order).f3]
          = (qualifyingFreqs x sr order).take 3 := by
  by_cases hg : x.length < 2 * order ∨ order = 0
  · exfalso
    simp [loqa_extract_formants, hg, failFormant] at h
  · rcases hq : qualifyingFreqs x sr order with _ | ⟨f1, _ | ⟨f2, _ | ⟨f3, rest⟩⟩⟩
    · exfalso
      simp [loqa_extract_formants, hg, hq, failFormant] at h
    · exfalso
      simp [loqa_extract_formants, hg, hq, failFormant] at h
    · exfalso
      simp [loqa_extract_formants, hg, hq, failFormant] at h
    · have hres : loqa_extract_formants x sr order = ⟨true, f1, f2, f3, 1⟩ := by
        simp [loqa_extract_formants, hg, hq]
      have hsorted : List.Sorted (· < ·) (qualifyingFreqs x sr order) :=
        sortedDistinct_sorted _
      rw [hq] at hsorted
      rcases List.sorted_cons.mp hsorted with ⟨h1, hs2⟩
      rcases List.sorted_cons.mp hs2 with ⟨h2, _⟩
      rw [hres]
      exact ⟨h1 f2 (by simp), h2 f3 (by simp), rfl⟩

/-- Witness for C8: a constant ten-sample buffer at 100 Hz with LPC order 5
succeeds and its first two formants are strictly ascending. -/
theorem formants_ascending_lowest_three_witness :
    (loqa_extract_formants flatSig 100 5).success = true
      ∧ (loqa_extract_formants flatSig 100 5).f1
          < (loqa_extract_formants flatSig 100 5).f2 :=
  ⟨by decide, (formants_ascending_lowest_three flatSig 100 5 (by decide)).1⟩

/-- C9: a successful `process_buffer` returns one track entry per analyzed
frame (all arrays and the length field equal the frame count), and the
timestamp array is exactly `i * hop_size / sample_rate` at frame index
`i`. -/
theorem process_buffer_one_entry_per_frame (st : AnalyzerState) (xs : List ℚ)
    (h : (loqa_voice_analyzer_process_buffer st xs).success = true) :
    (loqa_voice_analyzer_process_buffer st xs).length = avail st.config xs.length
      ∧ (loqa_voice_analyzer_process_buffer st xs).pitch_track.length
          = avail st.config xs.length
      ∧ (loqa_voice_analyzer_process_buffer st xs).voiced_probs.length
          = avail st.config xs.length
      ∧ (loqa_voice_analyzer_process_buffer st xs).timestamps
          = (List.range (avail st.config xs.length)).map
              (fun i => ((i * st.config.hop_size : ℕ) : ℚ) / (st.config.sample_rate : ℚ)) := by
  by_cases hlen : xs.length < st.config.frame_size
  · exfalso
    simp [loqa_voice_analyzer_process_buffer, hlen, failTrack] at h
  · have hred : loqa_voice_analyzer_process_buffer st xs =
        { success := true
          pitch_track := (viterbi (emitScore st.config) statesList
            ((framesOf st.config xs).map (fun fr =>
              ((detectWithConfig st.config fr).frequency,
                (detectWithConfig st.config fr).voiced_probability)))).map
            (fun s => if s = nBins then 0 else binFreq st.config s)
          voiced_probs := ((framesOf st.config xs).map (fun fr =>
              ((detectWithConfig st.config fr).frequency,
                (detectWithConfig st.config fr).voiced_probability))).map (fun o => o.2)
          timestamps := (List.range (framesOf st.config xs).length).map
            (fun i => ((i * st.config.hop_size : ℕ) : ℚ) / (st.config.sample_rate : ℚ))
          length := (framesOf st.config xs).length } := by
      simp only [loqa_voice_analyzer_process_buffer]
      rw [if_neg hlen]
    have hframes : (framesOf st.config xs).length = avail st.config xs.length := by
      simp [framesOf]
    have hstates : statesList ≠ [] := by
      simp [statesList, nBins]
    refine ⟨?_, ?_, ?_, ?_⟩
    · rw [hred]
      exact hframes
    · rw [hred]
      simp only [List.length_map]
      rw [viterbi_length (emitScore st.config) statesList hstates]
      simp only [List.length_map]
      exact hframes
    · rw [hred]
      simp only [List.length_map]
      exact hframes
    · rw [hred]
      rw [hframes]

/-- Witness for C9: the small configuration on four samples succeeds with
exactly one frame and the zero timestamp list entry. -/
theorem process_buffer_one_entry_per_frame_witness :
    (loqa_voice_analyzer_process_buffer (freshAnalyzer streamCfg) [1, 0, 1, 0]).success = true
      ∧ (loqa_voice_analyzer_process_buffer (freshAnalyzer streamCfg) [1, 0, 1, 0]).length
          = avail streamCfg 4 :=
  ⟨by decide,
    (process_buffer_one_entry_per_frame (freshAnalyzer streamCfg) [1, 0, 1, 0] (by decide)).1⟩
